import Mathlib

/-!
Keepalived: the BFD checker (`keepalived/check/check_bfd.c`) and the scheduler's exit codes
(`lib/scheduler.h`).

A shallow embedding of the BFD health checker of keepalived and of the
exit-code macros of the scheduler header.

* Pointers are natural-number identifiers into stores (`Heap`), so that pointer
  comparison (`tbfd == bfd_c->bfd`) is equality of identifiers.
* Calls into collaborators that are not part of the translated file
  (`thread_add_read`, `read`, `smtp_alert`, `update_svr_checker_state`) are
  recorded in a trace of `Call`s, in program order.
* `log_message` calls only write to the log and are left out of the trace.
* Constants and functions declared in headers that are not among the sources
  (`bfd.h`, `timer.h`, `parser.h`, `ipwrapper.h`) are collected in `Extern`.
-/

namespace Keepalived

/-! ## lib/scheduler.h -/

/-- Thread types (`thread_type_t`). -/
inductive thread_type_t where
  | THREAD_READ
  | THREAD_WRITE
  | THREAD_TIMER
  | THREAD_TIMER_SHUTDOWN
  | THREAD_EVENT
  | THREAD_CHILD
  | THREAD_READY
  | THREAD_UNUSED
  | THREAD_WRITE_TIMEOUT
  | THREAD_READ_TIMEOUT
  | THREAD_CHILD_TIMEOUT
  | THREAD_TERMINATE_START
  | THREAD_TERMINATE
  | THREAD_READY_FD
  | THREAD_IF_UP
  | THREAD_IF_DOWN
  deriving DecidableEq, Repr

/-- The fields of `thread_t` that `bfd_check_thread` looks at: the type and `u.fd`. -/
structure thread_t where
  id : Nat
  type : thread_type_t
  fd : Int
  deriving DecidableEq, Repr

/-- Macro `KEEPALIVED_EXIT_OK`, defined as `EXIT_SUCCESS`. -/
def KEEPALIVED_EXIT_OK (EXIT_SUCCESS : Nat) : Nat := EXIT_SUCCESS

/-- Macro `KEEPALIVED_EXIT_FATAL`, defined as `(EXIT_FAILURE+1)`. -/
def KEEPALIVED_EXIT_FATAL (EXIT_FAILURE : Nat) : Nat := EXIT_FAILURE + 1

/-- Macro `KEEPALIVED_EXIT_CONFIG`, defined as `(EXIT_FAILURE+2)`. -/
def KEEPALIVED_EXIT_CONFIG (EXIT_FAILURE : Nat) : Nat := EXIT_FAILURE + 2

/-- Macro `KEEPALIVED_EXIT_CONFIG_TEST`, defined as `(EXIT_FAILURE+3)`. -/
def KEEPALIVED_EXIT_CONFIG_TEST (EXIT_FAILURE : Nat) : Nat := EXIT_FAILURE + 3

/-- Macro `KEEPALIVED_EXIT_CONFIG_TEST_SECURITY`, defined as `(EXIT_FAILURE+4)`. -/
def KEEPALIVED_EXIT_CONFIG_TEST_SECURITY (EXIT_FAILURE : Nat) : Nat := EXIT_FAILURE + 4

/-- The five exit codes, in the order of the header. -/
def exit_codes (EXIT_SUCCESS EXIT_FAILURE : Nat) : List Nat :=
  [KEEPALIVED_EXIT_OK EXIT_SUCCESS, KEEPALIVED_EXIT_FATAL EXIT_FAILURE,
   KEEPALIVED_EXIT_CONFIG EXIT_FAILURE, KEEPALIVED_EXIT_CONFIG_TEST EXIT_FAILURE,
   KEEPALIVED_EXIT_CONFIG_TEST_SECURITY EXIT_FAILURE]

/-! ## keepalived/check/check_bfd.c : data model -/

/-- The C functions of the file whose address is taken (callbacks handed to the scheduler
and to the keyword installer). -/
inductive func_ptr where
  | bfd_check_thread
  | bfd_check_handler
  | bfd_name_handler
  | bfd_alpha_handler
  | bfd_end_handler
  deriving DecidableEq, Repr

/-- The private data of a BFD checker (`bfd_checker_t`): the tracked BFD it monitors,
as an index into `check_data->track_bfds`, or `none` for a NULL pointer. -/
structure bfd_checker_t where
  bfd : Option Nat
  deriving DecidableEq, Repr

/-- The fields of `checker_t` used by the file.  `rs` identifies the real server,
`data` is the checker's `bfd_checker_t` (`CHECKER_DATA`). -/
structure checker_t where
  rs : Nat
  data : bfd_checker_t
  alpha : Int
  is_up : Bool
  has_run : Bool
  retry : Nat
  retry_it : Nat
  deriving DecidableEq, Repr

/-- The fields of `real_server_t` used by the file.  `tracked_bfds` lists the
`bfd_checker_t`s monitoring for this server, each identified by the checker owning it
(a NULL list is the empty list, as `LIST_FOREACH` treats it). -/
structure real_server_t where
  smtp_alert : Bool
  tracked_bfds : List Nat
  deriving DecidableEq, Repr

/-- A tracked BFD instance (`checker_tracked_bfd_t`): its name and the checkers tracking it. -/
structure checker_tracked_bfd_t where
  bname : String
  tracking_rs : List Nat
  deriving DecidableEq, Repr

/-- The fields of a decoded event record (`bfd_event_t`) that the handler reads. -/
structure bfd_event_t where
  iname : String
  state : Nat
  deriving DecidableEq, Repr

/-- The objects reachable through checker and real-server pointers. -/
structure Heap where
  checkers : Nat → checker_t
  rs : Nat → real_server_t

/-- Constants and collaborator functions that the file uses and that are declared in
headers outside the translated sources. `update_svr_checker_state alive checker` is the
effect of the call on the heap. -/
structure Extern where
  BFD_STATE_DOWN : Nat
  BFD_STATE_UP : Nat
  BFD_INAME_MAX : Nat
  TIMER_NEVER : Nat
  sizeof_bfd_event_t : Nat
  bfd_checker_event_pipe0 : Int
  check_true_false : String → Int
  update_svr_checker_state : Bool → Nat → Heap → Heap

/-- Calls into collaborators, as recorded in program order. -/
inductive Call where
  | thread_add_read (func : func_ptr) (arg : Option Nat) (fd : Int) (timer : Nat)
  | read (fd : Int) (count : Nat)
  | bfd_check_handle_event (evt : List Nat)
  | smtp_alert (checker : Nat) (subject : String)
  | update_svr_checker_state (alive : Bool) (checker : Nat)
  deriving DecidableEq, Repr

/-! ## The event-pipe reader -/

/-- What one `read(fd, &evt, sizeof(bfd_event_t))` does: its return value and the bytes
the kernel offers. -/
structure read_result where
  ret : Int
  data : List Nat
  deriving DecidableEq, Repr

/-- The buffer `evt` after a read: a positive return value `n` overwrites its first `n`
bytes, any other return value leaves it as it was. -/
def store_read (r : read_result) (evt : List Nat) : List Nat :=
  if 0 < r.ret then r.data.take r.ret.toNat ++ evt.drop r.ret.toNat else evt

/-- Result of running `bfd_check_thread` against a script of read results: the calls made,
the read results not consumed, and whether the function returned (`false`: the script ran
out while the loop was still reading). -/
structure Outcome where
  trace : List Call
  rest : List read_result
  returned : Bool
  deriving DecidableEq, Repr

/-- The loop `while (read(thread->u.fd, &evt, sizeof(bfd_event_t)) != -1)
bfd_check_handle_event(&evt);`. -/
def drain_loop (x : Extern) (fd : Int) : List read_result → List Nat → List Call → Outcome
  | [], _, tr => ⟨tr, [], false⟩
  | r :: rs, evt, tr =>
    if r.ret != -1 then
      drain_loop x fd rs (store_read r evt)
        (tr ++ [Call.read fd x.sizeof_bfd_event_t, Call.bfd_check_handle_event (store_read r evt)])
    else
      ⟨tr ++ [Call.read fd x.sizeof_bfd_event_t], rs, true⟩

/-- Function `bfd_check_thread`.  The handle `thread_add_read` returns goes to the static
`bfd_thread`, which only `checker_bfd_dispatcher_release` reads.  `reads` scripts the results of the successive reads of the fd,
`evt0` is the initial (indeterminate) content of the local buffer `evt`. -/
def bfd_check_thread (x : Extern) (thread : thread_t) (reads : List read_result)
    (evt0 : List Nat) : Outcome :=
  let tr := [Call.thread_add_read func_ptr.bfd_check_thread none thread.fd x.TIMER_NEVER]
  if thread.type != thread_type_t.THREAD_READY_FD then
    ⟨tr, reads, true⟩
  else
    drain_loop x thread.fd reads evt0 tr

/-- Function `start_bfd_monitoring`. -/
def start_bfd_monitoring (x : Extern) : List Call :=
  [Call.thread_add_read func_ptr.bfd_check_thread none x.bfd_checker_event_pipe0 x.TIMER_NEVER]

/-! ## Reacting to a BFD event -/

/-- Body of the inner `LIST_FOREACH(cbfd->tracking_rs, checker, e1)` for one checker:
the state before is the heap and the calls made so far. -/
def handle_checker (x : Extern) (evt : bfd_event_t) (st : Heap × List Call) (checker : Nat) :
    Heap × List Call :=
  let c := st.1.checkers checker
  if ((evt.state == x.BFD_STATE_UP) == c.is_up) && c.has_run then
    st
  else if evt.state == x.BFD_STATE_DOWN && decide (c.retry_it < c.retry) then
    let c' : checker_t := { c with retry_it := c.retry_it + 1 }
    ({ st.1 with checkers := Function.update st.1.checkers checker c' }, st.2)
  else
    let tr :=
      if (st.1.rs c.rs).smtp_alert && ((evt.state == x.BFD_STATE_UP) != c.is_up) then
        st.2 ++ [Call.smtp_alert checker (if evt.state == x.BFD_STATE_UP then "UP" else "DOWN")]
      else st.2
    (x.update_svr_checker_state (evt.state == x.BFD_STATE_UP) checker st.1,
     tr ++ [Call.update_svr_checker_state (evt.state == x.BFD_STATE_UP) checker])

/-- Function `bfd_check_handle_event` (its opening block only logs): the outer `LIST_FOREACH(check_data->track_bfds, cbfd, e)`,
which skips the tracked BFDs of another name and stops after the first of this name. -/
def bfd_check_handle_event (x : Extern) :
    List checker_tracked_bfd_t → bfd_event_t → Heap → Heap × List Call
  | [], _, h => (h, [])
  | cbfd :: rest, evt, h =>
    if cbfd.bname != evt.iname then
      bfd_check_handle_event x rest evt h
    else
      cbfd.tracking_rs.foldl (handle_checker x evt) (h, [])

/-- A sequence of events handled one after the other, with all the calls made. -/
def handle_events (x : Extern) (track_bfds : List checker_tracked_bfd_t) :
    List bfd_event_t → Heap → Heap × List Call
  | [], h => (h, [])
  | evt :: evts, h =>
    let r := bfd_check_handle_event x track_bfds evt h
    let r' := handle_events x track_bfds evts r.1
    (r'.1, r.2 ++ r'.2)

/-- The calls of a trace that are made on checker `c`. -/
def calls_on (c : Nat) (tr : List Call) : List Call :=
  tr.filter fun
    | Call.smtp_alert k _ => k == c
    | Call.update_svr_checker_state _ k => k == c
    | _ => false

/-- The `update_svr_checker_state` calls of a trace that are made on checker `c`. -/
def updates_on (c : Nat) (tr : List Call) : List Call :=
  tr.filter fun
    | Call.update_svr_checker_state _ k => k == c
    | _ => false

/-- Number of events of a sequence that report state DOWN. -/
def count_down (x : Extern) (evts : List bfd_event_t) : Nat :=
  evts.countP fun e => e.state == x.BFD_STATE_DOWN

/-- What the file relies on from `update_svr_checker_state`: among the checkers it changes
only the one it is called on, and it leaves that checker's `retry` and `retry_it` alone. -/
def update_frame (x : Extern) : Prop :=
  ∀ (alive : Bool) (k : Nat) (h : Heap),
    (∀ j, j ≠ k → (x.update_svr_checker_state alive k h).checkers j = h.checkers j) ∧
    ((x.update_svr_checker_state alive k h).checkers k).retry = (h.checkers k).retry ∧
    ((x.update_svr_checker_state alive k h).checkers k).retry_it = (h.checkers k).retry_it

/-! ## Configuration handlers -/

/-- The state the configuration handlers work on: `check_data->track_bfds`, the heap,
the number of checkers allocated so far, the checkers queue and the file's static
`new_checker`. -/
structure check_state where
  track_bfds : List checker_tracked_bfd_t
  heap : Heap
  alloc : Nat
  checkers_queue : List Nat
  new_checker : Option Nat

/-- The loop of `find_checker_tracked_bfd_by_name`, from position `i` of the list on. -/
def find_from (name : String) : List checker_tracked_bfd_t → Nat → Option Nat
  | [], _ => none
  | bfd :: rest, i => if bfd.bname == name then some i else find_from name rest (i + 1)

/-- Function `find_checker_tracked_bfd_by_name`: the first tracked BFD of that name, or NULL. -/
def find_checker_tracked_bfd_by_name (track_bfds : List checker_tracked_bfd_t)
    (name : String) : Option Nat :=
  find_from name track_bfds 0

/-- Modelled from the spec: `queue_checker` of check_api.c, which is not among the sources.
It allocates a new checker with the given content, appends it to the checkers queue and
returns it. -/
def queue_checker (init : checker_t) (s : check_state) : check_state × Nat :=
  ({ s with heap := { s.heap with checkers := Function.update s.heap.checkers s.alloc init }
            alloc := s.alloc + 1
            checkers_queue := s.checkers_queue ++ [s.alloc] }, s.alloc)

/-- Modelled from the spec: `dequeue_new_checker` of check_api.c, which is not among the
sources. It removes the checker queued last from the checkers queue. -/
def dequeue_new_checker (s : check_state) : check_state :=
  { s with checkers_queue := s.checkers_queue.dropLast }

/-- Function `bfd_check_handler`. The word vector is unused; `init` is the content `queue_checker`
gives a new checker of the real server being configured, `PMALLOC` hands out zeroed
private data. -/
def bfd_check_handler (init : checker_t) (s : check_state) : check_state :=
  let new_bfd_checker : bfd_checker_t := { bfd := none }
  let r := queue_checker { init with data := new_bfd_checker } s
  { r.1 with new_checker := some r.2 }

/-- The loop `LIST_FOREACH(new_checker->rs->tracked_bfds, bfd_c, e)` of `bfd_name_handler`:
whether one of the listed checkers already monitors `tbfd`. -/
def already_monitoring (h : Heap) (tbfd : Nat) : List Nat → Bool
  | [] => false
  | bfd_c :: rest =>
    if some tbfd == (h.checkers bfd_c).data.bfd then true else already_monitoring h tbfd rest

/-- Function `bfd_name_handler`.  `name` is read only when the vector has 2 words, so its
value for a shorter vector is immaterial; `strlen` is the byte length; `config_error` is
assigned twice, as in the source: by the chain of tests, then by the list scan. -/
def bfd_name_handler (x : Extern) (strvec : List String) (s : check_state) : check_state :=
  match s.new_checker with
  | none => s
  | some nc =>
    let cbfd := (s.heap.checkers nc).data
    let name := strvec.getD 1 ""
    let tbfd := find_checker_tracked_bfd_by_name s.track_bfds name
    let config_error :=
      if strvec.length != 2 then true
      else if tbfd.isNone then true
      else if cbfd.bfd.isSome then true
      else if decide (name.utf8ByteSize ≥ x.BFD_INAME_MAX) then true
      else false
    let config_error :=
      if !config_error then
        match tbfd with
        | some t => already_monitoring s.heap t (s.heap.rs (s.heap.checkers nc).rs).tracked_bfds
        | none => config_error
      else config_error
    if config_error then
      { dequeue_new_checker s with new_checker := none }
    else
      let checker : checker_t := { s.heap.checkers nc with data := { cbfd with bfd := tbfd } }
      { s with heap := { s.heap with checkers := Function.update s.heap.checkers nc checker } }

/-- Function `bfd_alpha_handler`. -/
def bfd_alpha_handler (x : Extern) (strvec : List String) (s : check_state) : check_state :=
  match s.new_checker with
  | none => s
  | some nc =>
    let set_alpha (res : Int) : check_state :=
      let checker : checker_t := { s.heap.checkers nc with alpha := res }
      { s with heap := { s.heap with checkers := Function.update s.heap.checkers nc checker } }
    if strvec.length ≥ 2 then
      let res := x.check_true_false (strvec.getD 1 "")
      if res == -1 then s else set_alpha res
    else
      set_alpha 1

/-- Appends checker `c` to the `tracking_rs` list of the tracked BFD at position `i`. -/
def add_tracking_rs (c : Nat) : List checker_tracked_bfd_t → Nat → List checker_tracked_bfd_t
  | [], _ => []
  | bfd :: rest, 0 => { bfd with tracking_rs := bfd.tracking_rs ++ [c] } :: rest
  | bfd :: rest, i + 1 => bfd :: add_tracking_rs c rest i

/-- Function `bfd_end_handler`; `list_add` appends at the tail. -/
def bfd_end_handler (s : check_state) : check_state :=
  match s.new_checker with
  | none => s
  | some nc =>
    let checker := s.heap.checkers nc
    match checker.data.bfd with
    | none => { dequeue_new_checker s with new_checker := none }
    | some b =>
      let rs := s.heap.rs checker.rs
      let rs' : real_server_t := { rs with tracked_bfds := rs.tracked_bfds ++ [nc] }
      { s with heap := { s.heap with rs := Function.update s.heap.rs checker.rs rs' }
               track_bfds := add_tracking_rs nc s.track_bfds b
               new_checker := none }

/-- One call of a configuration handler of the `BFD_CHECK` block, with its arguments. -/
inductive handler_call where
  | bfd_check (init : checker_t)
  | bfd_name (strvec : List String)
  | bfd_alpha (strvec : List String)
  | bfd_end
  deriving DecidableEq, Repr

/-- Runs one handler call. -/
def run_handler (x : Extern) (s : check_state) : handler_call → check_state
  | handler_call.bfd_check init => bfd_check_handler init s
  | handler_call.bfd_name strvec => bfd_name_handler x strvec s
  | handler_call.bfd_alpha strvec => bfd_alpha_handler x strvec s
  | handler_call.bfd_end => bfd_end_handler s

/-- Runs a sequence of handler calls, first to last. -/
def run_handlers (x : Extern) (calls : List handler_call) (s : check_state) : check_state :=
  calls.foldl (run_handler x) s

/-- The tracked BFDs (NULL included) of the checkers on real server `r`'s `tracked_bfds`
list, in list order. -/
def monitored_bfds (h : Heap) (r : Nat) : List (Option Nat) :=
  (h.rs r).tracked_bfds.map fun c => (h.checkers c).data.bfd

/-- No real server's `tracked_bfds` list holds two checkers with the same tracked BFD. -/
def no_double_monitoring (h : Heap) : Prop :=
  ∀ r t, (monitored_bfds h r).count (some t) ≤ 1

/-- Every checker on a real server's `tracked_bfds` list has been allocated. -/
def lists_allocated (s : check_state) : Prop :=
  ∀ r, ∀ c ∈ (s.heap.rs r).tracked_bfds, c < s.alloc

/-- The invariant kept by the configuration handlers: no real server monitors a BFD twice,
the listed checkers are allocated, and the checker being defined, if any, is allocated, on
no real server's list, and its BFD (if set) is not yet monitored by its real server. -/
structure config_inv (s : check_state) : Prop where
  nodup : no_double_monitoring s.heap
  listed : lists_allocated s
  fresh : ∀ nc, s.new_checker = some nc →
    nc < s.alloc ∧ (∀ r, nc ∉ (s.heap.rs r).tracked_bfds) ∧
    ∀ t, (s.heap.checkers nc).data.bfd = some t →
      some t ∉ monitored_bfds s.heap (s.heap.checkers nc).rs

/-- The call opens a new `BFD_CHECK` block. -/
def is_bfd_check : handler_call → Bool
  | handler_call.bfd_check _ => true
  | _ => false

/-! ## Reading traces -/

/-- The call re-arms a readable registration. -/
def is_rearm : Call → Bool
  | Call.thread_add_read _ _ _ _ => true
  | _ => false

/-- The call reads the fd or hands a record to the event handler. -/
def is_drain : Call → Bool
  | Call.read _ _ => true
  | Call.bfd_check_handle_event _ => true
  | _ => false

/-- The call hands a record to the event handler. -/
def is_delivery : Call → Bool
  | Call.bfd_check_handle_event _ => true
  | _ => false

/-- The content of the buffer `evt` after each read of a sequence, starting from content
`evt`. -/
def buffers_after : List read_result → List Nat → List (List Nat)
  | [], _ => []
  | r :: rs, evt => store_read r evt :: buffers_after rs (store_read r evt)

/-- Drain before re-arm: once a call has re-armed the task, no later call of the trace
reads the fd or delivers a record. -/
def drained_before_rearm : List Call → Bool
  | [] => true
  | c :: rest => (!is_rearm c || rest.all fun d => !is_drain d) && drained_before_rearm rest

/-- Only complete records are delivered: the number of deliveries of a trace equals the
number of reads of the script that returned exactly one record's size. -/
def only_complete_delivered (x : Extern) (reads : List read_result) (tr : List Call) : Bool :=
  tr.countP is_delivery == reads.countP fun r => r.ret == (x.sizeof_bfd_event_t : Int)

/-! ## Sample environment and states -/

/-- A sample environment: the BFD state numbers of RFC 5880, a 4-byte event record, and an
`update_svr_checker_state` that records the new state in the checker. -/
def sample_env : Extern where
  BFD_STATE_DOWN := 1
  BFD_STATE_UP := 3
  BFD_INAME_MAX := 32
  TIMER_NEVER := 2 ^ 64 - 1
  sizeof_bfd_event_t := 4
  bfd_checker_event_pipe0 := 7
  check_true_false := fun w =>
    if w == "true" || w == "on" || w == "yes" then 1
    else if w == "false" || w == "off" || w == "no" then 0
    else -1
  update_svr_checker_state := fun alive checker h =>
    let c : checker_t := { h.checkers checker with is_up := alive, has_run := true }
    { h with checkers := Function.update h.checkers checker c }

/-- A task fired by readiness of fd 7. -/
def sample_ready_thread : thread_t := { id := 1, type := thread_type_t.THREAD_READY_FD, fd := 7 }

/-- A task fired by its read timeout on fd 7. -/
def sample_timeout_thread : thread_t :=
  { id := 1, type := thread_type_t.THREAD_READ_TIMEOUT, fd := 7 }

/-- The content `queue_checker` gives a new checker of real server 0 in the samples. -/
def sample_checker : checker_t :=
  { rs := 0, data := { bfd := none }, alpha := -1, is_up := true, has_run := false,
    retry := 2, retry_it := 0 }

/-- A heap with no checker on any real server's list. -/
def sample_heap : Heap :=
  { checkers := fun _ => sample_checker
    rs := fun _ => { smtp_alert := true, tracked_bfds := [] } }

/-- A configuration state with two tracked BFDs and no `BFD_CHECK` block read yet. -/
def sample_state : check_state :=
  { track_bfds := [{ bname := "bfd1", tracking_rs := [] }, { bname := "bfd2", tracking_rs := [] }]
    heap := sample_heap
    alloc := 0
    checkers_queue := []
    new_checker := none }

/-- Two `BFD_CHECK` blocks for the same real server, both naming `bfd1`. -/
def sample_calls : List handler_call :=
  [handler_call.bfd_check sample_checker, handler_call.bfd_name ["name", "bfd1"],
   handler_call.bfd_end,
   handler_call.bfd_check sample_checker, handler_call.bfd_name ["name", "bfd1"],
   handler_call.bfd_alpha ["alpha"], handler_call.bfd_end]

/-- A heap whose checker 0 is up, has run, and has 2 retries of which none is used. -/
def sample_run_heap : Heap :=
  { checkers := fun _ => { sample_checker with has_run := true }
    rs := fun _ => { smtp_alert := true, tracked_bfds := [0] } }

/-- One tracked BFD, `bfd1`, tracked by checker 0. -/
def sample_track_bfds : List checker_tracked_bfd_t := [{ bname := "bfd1", tracking_rs := [0] }]

/-- A DOWN event for `bfd1`. -/
def sample_down : bfd_event_t := { iname := "bfd1", state := 1 }

/-- An UP event for `bfd1`. -/
def sample_up : bfd_event_t := { iname := "bfd1", state := 3 }

/-! # Properties -/

/-! ## The event-pipe reader -/

theorem drain_loop_until_error (x : Extern) (fd : Int) (rs : List read_result)
    (last : read_result) (rest : List read_result)
    (hrs : ∀ r ∈ rs, r.ret ≠ -1) (hlast : last.ret = -1) (evt : List Nat) (tr : List Call) :
    drain_loop x fd (rs ++ last :: rest) evt tr =
      ⟨tr ++ ((buffers_after rs evt).flatMap fun b =>
                [Call.read fd x.sizeof_bfd_event_t, Call.bfd_check_handle_event b])
          ++ [Call.read fd x.sizeof_bfd_event_t], rest, true⟩ := by
  induction rs generalizing evt tr with
  | nil => simp [drain_loop, buffers_after, hlast]
  | cons r rs ih =>
    have hr : r.ret ≠ -1 := hrs r (List.mem_cons_self _ _)
    have hrs' : ∀ r' ∈ rs, r'.ret ≠ -1 := fun r' h => hrs r' (List.mem_cons_of_mem _ h)
    simp [drain_loop, buffers_after, hr, ih hrs']

theorem drain_loop_rearm (x : Extern) (fd : Int) (reads : List read_result) (evt : List Nat)
    (tr : List Call) :
    (drain_loop x fd reads evt tr).trace.filter is_rearm = tr.filter is_rearm := by
  induction reads generalizing evt tr with
  | nil => simp [drain_loop]
  | cons r rs ih =>
    unfold drain_loop
    split
    · rw [ih]; simp [List.filter_append, is_rearm]
    · simp [List.filter_append, is_rearm]

theorem drain_loop_trace_prefix (x : Extern) (fd : Int) (reads : List read_result)
    (evt : List Nat) (tr : List Call) :
    ∃ tl, (drain_loop x fd reads evt tr).trace = tr ++ tl ∧ ∀ d ∈ tl, is_rearm d = false := by
  induction reads generalizing evt tr with
  | nil => exact ⟨[], by simp [drain_loop]⟩
  | cons r rs ih =>
    unfold drain_loop
    split
    · obtain ⟨tl, h, htl⟩ := ih (store_read r evt)
        (tr ++ [Call.read fd x.sizeof_bfd_event_t, Call.bfd_check_handle_event (store_read r evt)])
      refine ⟨[Call.read fd x.sizeof_bfd_event_t,
        Call.bfd_check_handle_event (store_read r evt)] ++ tl, by simp [h], ?_⟩
      intro d hd
      simp only [List.mem_append, List.mem_cons, List.mem_singleton, List.not_mem_nil,
        or_false] at hd
      rcases hd with (rfl | rfl) | hd
      · rfl
      · rfl
      · exact htl d hd
    · exact ⟨[Call.read fd x.sizeof_bfd_event_t], rfl, by simp [is_rearm]⟩

/-- C1. Fired by readiness, with read results `rs` all different from -1 followed by a
first result `last` equal to -1, `bfd_check_thread` returns after having re-armed, then for
each result of `rs` in order read the fd and handed the buffer as it is after that read to
`bfd_check_handle_event` (so `rs.length` deliveries), then made the read answered by `last`;
the results scripted after `last` are not consumed.  Fired with any other type it returns
after the re-arming alone: no read, no delivery. -/
theorem bfd_check_thread_drains (x : Extern) (thread : thread_t) (rs : List read_result)
    (last : read_result) (rest : List read_result) (evt0 : List Nat)
    (hrs : ∀ r ∈ rs, r.ret ≠ -1) (hlast : last.ret = -1) :
    (thread.type = thread_type_t.THREAD_READY_FD →
      bfd_check_thread x thread (rs ++ last :: rest) evt0 =
        ⟨Call.thread_add_read func_ptr.bfd_check_thread none thread.fd x.TIMER_NEVER ::
          ((buffers_after rs evt0).flatMap fun b =>
            [Call.read thread.fd x.sizeof_bfd_event_t, Call.bfd_check_handle_event b])
          ++ [Call.read thread.fd x.sizeof_bfd_event_t], rest, true⟩ ∧
      (bfd_check_thread x thread (rs ++ last :: rest) evt0).trace.filter is_delivery =
        (buffers_after rs evt0).map Call.bfd_check_handle_event ∧
      ((bfd_check_thread x thread (rs ++ last :: rest) evt0).trace.filter is_delivery).length =
        rs.length) ∧
    (thread.type ≠ thread_type_t.THREAD_READY_FD →
      bfd_check_thread x thread (rs ++ last :: rest) evt0 =
        ⟨[Call.thread_add_read func_ptr.bfd_check_thread none thread.fd x.TIMER_NEVER],
          rs ++ last :: rest, true⟩) := by
  have hlen : ∀ (l : List read_result) (e : List Nat), (buffers_after l e).length = l.length := by
    intro l
    induction l with
    | nil => intro e; rfl
    | cons r l ih => intro e; simp [buffers_after, ih]
  have hdel : ∀ (bs : List (List Nat)),
      (bs.flatMap fun b => [Call.read thread.fd x.sizeof_bfd_event_t,
        Call.bfd_check_handle_event b]).filter is_delivery
        = bs.map Call.bfd_check_handle_event := by
    intro bs
    induction bs with
    | nil => rfl
    | cons b bs ih => simp [List.flatMap_cons, List.filter_cons, is_delivery, ih]
  constructor
  · intro hty
    have hrun : bfd_check_thread x thread (rs ++ last :: rest) evt0 =
        ⟨Call.thread_add_read func_ptr.bfd_check_thread none thread.fd x.TIMER_NEVER ::
          ((buffers_after rs evt0).flatMap fun b =>
            [Call.read thread.fd x.sizeof_bfd_event_t, Call.bfd_check_handle_event b])
          ++ [Call.read thread.fd x.sizeof_bfd_event_t], rest, true⟩ := by
      simp [bfd_check_thread, hty, drain_loop_until_error x thread.fd rs last rest hrs hlast]
    have hfil : (bfd_check_thread x thread (rs ++ last :: rest) evt0).trace.filter is_delivery =
        (buffers_after rs evt0).map Call.bfd_check_handle_event := by
      rw [hrun]
      simp [List.filter_cons, List.filter_append, is_delivery, hdel]
    refine ⟨hrun, hfil, ?_⟩
    rw [hfil, List.length_map, hlen]
  · intro hty
    simp [bfd_check_thread, hty]

/-- Witness for C1: two complete records, an end-of-stream read, then -1. -/
theorem bfd_check_thread_drains_witness :
    bfd_check_thread sample_env sample_ready_thread
        ([⟨4, [1, 2, 3, 4]⟩, ⟨4, [5, 6, 7, 8]⟩] ++ ⟨-1, []⟩ :: [⟨4, [9, 9, 9, 9]⟩]) [0, 0, 0, 0] =
      ⟨[Call.thread_add_read func_ptr.bfd_check_thread none 7 (2 ^ 64 - 1),
        Call.read 7 4, Call.bfd_check_handle_event [1, 2, 3, 4],
        Call.read 7 4, Call.bfd_check_handle_event [5, 6, 7, 8],
        Call.read 7 4], [⟨4, [9, 9, 9, 9]⟩], true⟩ :=
  ((bfd_check_thread_drains sample_env sample_ready_thread
      [⟨4, [1, 2, 3, 4]⟩, ⟨4, [5, 6, 7, 8]⟩] ⟨-1, []⟩ [⟨4, [9, 9, 9, 9]⟩] [0, 0, 0, 0]
      (by decide) (by decide)).1 rfl).1

/-- C2, as stated, fails: fired by readiness with one complete record available, the
task is re-armed first and the fd is read, and the record delivered, after that. -/
theorem drain_before_rearm_fails :
    drained_before_rearm
      (bfd_check_thread sample_env sample_ready_thread
        [⟨4, [1, 2, 3, 4]⟩, ⟨-1, []⟩] [0, 0, 0, 0]).trace = false := by
  decide

/-- C2, amended. In every invocation of `bfd_check_thread` the re-registration
`thread_add_read` is the first call made, before every read of the fd and every call of
`bfd_check_handle_event`, and none of the calls that follow it re-arms again. -/
theorem bfd_check_thread_rearms_first (x : Extern) (thread : thread_t)
    (reads : List read_result) (evt0 : List Nat) :
    ∃ tl, (bfd_check_thread x thread reads evt0).trace =
        Call.thread_add_read func_ptr.bfd_check_thread none thread.fd x.TIMER_NEVER :: tl ∧
      (∀ d ∈ tl, is_rearm d = false) ∧
      (bfd_check_thread x thread reads evt0).trace.filter is_drain = tl.filter is_drain := by
  unfold bfd_check_thread
  by_cases hty : thread.type = thread_type_t.THREAD_READY_FD
  · obtain ⟨tl, h, htl⟩ := drain_loop_trace_prefix x thread.fd reads evt0
      [Call.thread_add_read func_ptr.bfd_check_thread none thread.fd x.TIMER_NEVER]
    refine ⟨tl, ?_, htl, ?_⟩
    · simp [hty, h]
    · simp [hty, h, List.filter_cons, is_drain]
  · exact ⟨[], by simp [hty], by simp, by simp [hty, List.filter_cons, is_drain]⟩

/-- C3, the code at the failing input: fired by readiness with a read that returns 0
(end of stream) and then one that returns -1, `bfd_check_thread` hands the untouched
buffer to `bfd_check_handle_event` once, although no record was read. -/
theorem bfd_check_thread_delivers_on_eof :
    (bfd_check_thread sample_env sample_ready_thread [⟨0, []⟩, ⟨-1, []⟩] [9, 9, 9, 9]).trace =
      [Call.thread_add_read func_ptr.bfd_check_thread none 7 (2 ^ 64 - 1),
       Call.read 7 4, Call.bfd_check_handle_event [9, 9, 9, 9], Call.read 7 4] ∧
    only_complete_delivered sample_env [⟨0, []⟩, ⟨-1, []⟩]
      (bfd_check_thread sample_env sample_ready_thread [⟨0, []⟩, ⟨-1, []⟩] [9, 9, 9, 9]).trace
      = false ∧
    (bfd_check_thread sample_env sample_ready_thread [⟨2, [1, 2]⟩, ⟨-1, []⟩] [9, 9, 9, 9]).trace =
      [Call.thread_add_read func_ptr.bfd_check_thread none 7 (2 ^ 64 - 1),
       Call.read 7 4, Call.bfd_check_handle_event [1, 2, 9, 9], Call.read 7 4] := by
  decide

/-- C4. `start_bfd_monitoring` makes exactly one call, a readable registration of
`bfd_check_thread` with argument NULL on `bfd_checker_event_pipe[0]` with `TIMER_NEVER`;
and every invocation of `bfd_check_thread`, whatever the task's type and whatever the reads
return, makes exactly one readable registration, of `bfd_check_thread` with argument NULL
on the fired task's own fd with `TIMER_NEVER`. -/
theorem registration_shape (x : Extern) :
    start_bfd_monitoring x =
      [Call.thread_add_read func_ptr.bfd_check_thread none x.bfd_checker_event_pipe0
        x.TIMER_NEVER] ∧
    ∀ (thread : thread_t) (reads : List read_result) (evt0 : List Nat),
      (bfd_check_thread x thread reads evt0).trace.filter is_rearm =
        [Call.thread_add_read func_ptr.bfd_check_thread none thread.fd x.TIMER_NEVER] := by
  refine ⟨rfl, ?_⟩
  intro thread reads evt0
  unfold bfd_check_thread
  by_cases hty : thread.type = thread_type_t.THREAD_READY_FD
  · simp [hty, drain_loop_rearm, List.filter_cons, is_rearm]
  · simp [hty, List.filter_cons, is_rearm]

/-! ## Exit codes -/

/-- C5. With `EXIT_SUCCESS = 0` and `EXIT_FAILURE = 1` the five exit codes are 0, 2, 3, 4
and 5, pairwise distinct, and `KEEPALIVED_EXIT_OK` is the only one equal to 0. -/
theorem exit_codes_distinct :
    exit_codes 0 1 = [0, 2, 3, 4, 5] ∧ (exit_codes 0 1).Nodup ∧
    KEEPALIVED_EXIT_OK 0 = 0 ∧ KEEPALIVED_EXIT_FATAL 1 ≠ 0 ∧ KEEPALIVED_EXIT_CONFIG 1 ≠ 0 ∧
    KEEPALIVED_EXIT_CONFIG_TEST 1 ≠ 0 ∧ KEEPALIVED_EXIT_CONFIG_TEST_SECURITY 1 ≠ 0 := by
  decide

/-! ## Reacting to a BFD event -/

theorem bfd_check_handle_event_first_match (x : Extern) (evt : bfd_event_t)
    (track_bfds : List checker_tracked_bfd_t) (h : Heap) :
    bfd_check_handle_event x track_bfds evt h =
      match track_bfds.find? (fun b => b.bname == evt.iname) with
      | none => (h, [])
      | some b => b.tracking_rs.foldl (handle_checker x evt) (h, []) := by
  induction track_bfds with
  | nil => rfl
  | cons b rest ih =>
    by_cases hb : b.bname = evt.iname
    · simp [bfd_check_handle_event, List.find?_cons, hb]
    · simp [bfd_check_handle_event, List.find?_cons, hb, ih]

/-- C6. `bfd_check_handle_event` visits, in list order, the checkers on the `tracking_rs`
list of the first tracked BFD named `evt.iname` (and does nothing when there is none), and
for each checker `k`, with `c` its content when visited, does exactly one of:
(1) if `(evt.state = UP) = c.is_up` and `c.has_run`, nothing;
(2) otherwise, if `evt.state = DOWN` and `c.retry_it < c.retry`, it increments `retry_it`
    and makes no call;
(3) otherwise it calls `update_svr_checker_state (evt.state = UP) k` once, preceded by one
    `smtp_alert` exactly when the real server's `smtp_alert` is set and `(evt.state = UP)`
    differs from `c.is_up`. -/
theorem bfd_check_handle_event_reaction (x : Extern) (evt : bfd_event_t) :
    (∀ (track_bfds : List checker_tracked_bfd_t) (h : Heap),
      bfd_check_handle_event x track_bfds evt h =
        match track_bfds.find? (fun b => b.bname == evt.iname) with
        | none => (h, [])
        | some b => b.tracking_rs.foldl (handle_checker x evt) (h, [])) ∧
    ∀ (h : Heap) (tr : List Call) (k : Nat),
      (((evt.state == x.BFD_STATE_UP) = (h.checkers k).is_up ∧ (h.checkers k).has_run = true) →
        handle_checker x evt (h, tr) k = (h, tr)) ∧
      (¬((evt.state == x.BFD_STATE_UP) = (h.checkers k).is_up ∧ (h.checkers k).has_run = true) →
        evt.state = x.BFD_STATE_DOWN ∧ (h.checkers k).retry_it < (h.checkers k).retry →
        handle_checker x evt (h, tr) k =
          ({ h with checkers := (Function.update h.checkers k
              { h.checkers k with retry_it := (h.checkers k).retry_it + 1 }) }, tr)) ∧
      (¬((evt.state == x.BFD_STATE_UP) = (h.checkers k).is_up ∧ (h.checkers k).has_run = true) →
        ¬(evt.state = x.BFD_STATE_DOWN ∧ (h.checkers k).retry_it < (h.checkers k).retry) →
        handle_checker x evt (h, tr) k =
          (x.update_svr_checker_state (evt.state == x.BFD_STATE_UP) k h,
            tr ++ (if (h.rs (h.checkers k).rs).smtp_alert = true ∧
                      (evt.state == x.BFD_STATE_UP) ≠ (h.checkers k).is_up
                   then [Call.smtp_alert k (if evt.state = x.BFD_STATE_UP then "UP" else "DOWN")]
                   else [])
              ++ [Call.update_svr_checker_state (evt.state == x.BFD_STATE_UP) k])) ∧
      (∀ subject, Call.smtp_alert k subject ∈ (handle_checker x evt (h, []) k).2 →
        (evt.state == x.BFD_STATE_UP) ≠ (h.checkers k).is_up) ∧
      (evt.state ≠ x.BFD_STATE_UP →
        ∀ alive, Call.update_svr_checker_state alive k ∈ (handle_checker x evt (h, []) k).2 →
          alive = false) := by
  refine ⟨bfd_check_handle_event_first_match x evt, ?_⟩
  intro h tr k
  refine ⟨?_, ?_, ?_, ?_, ?_⟩
  rotate_left 3
  · intro subject hmem
    unfold handle_checker at hmem
    simp only [] at hmem
    split at hmem
    · simp at hmem
    · split at hmem
      · simp at hmem
      · split at hmem
        · rename_i hal
          simp only [Bool.and_eq_true, bne_iff_ne, ne_eq] at hal
          exact hal.2
        · simp at hmem
  · intro hst alive hmem
    have hup : (evt.state == x.BFD_STATE_UP) = false := by simpa using hst
    unfold handle_checker at hmem
    simp only [] at hmem
    split at hmem
    · simp at hmem
    · split at hmem
      · simp at hmem
      · split at hmem <;> simp [hup] at hmem <;> exact hmem
  · rintro ⟨h1, h2⟩
    simp [handle_checker, h1, h2]
  · intro h1 h2
    have h1' : (((evt.state == x.BFD_STATE_UP) == (h.checkers k).is_up) &&
        (h.checkers k).has_run) = false := by
      cases hb : (((evt.state == x.BFD_STATE_UP) == (h.checkers k).is_up) &&
        (h.checkers k).has_run)
      · rfl
      · exfalso; apply h1; simpa using hb
    simp only [handle_checker, h1']
    simp [h2.1, h2.2]
  · intro h1 h2
    have h1' : (((evt.state == x.BFD_STATE_UP) == (h.checkers k).is_up) &&
        (h.checkers k).has_run) = false := by
      cases hb : (((evt.state == x.BFD_STATE_UP) == (h.checkers k).is_up) &&
        (h.checkers k).has_run)
      · rfl
      · exfalso; apply h1; simpa using hb
    have h2' : (evt.state == x.BFD_STATE_DOWN &&
        decide ((h.checkers k).retry_it < (h.checkers k).retry)) = false := by
      cases hb : (evt.state == x.BFD_STATE_DOWN &&
        decide ((h.checkers k).retry_it < (h.checkers k).retry))
      · rfl
      · exfalso; apply h2; simpa using hb
    simp only [handle_checker, h1', h2']
    by_cases ha : (h.rs (h.checkers k).rs).smtp_alert = true ∧
        (evt.state == x.BFD_STATE_UP) ≠ (h.checkers k).is_up
    · simp [ha.1, ha.2]
    · have : ((h.rs (h.checkers k).rs).smtp_alert &&
          ((evt.state == x.BFD_STATE_UP) != (h.checkers k).is_up)) = false := by
        cases hb : ((h.rs (h.checkers k).rs).smtp_alert &&
          ((evt.state == x.BFD_STATE_UP) != (h.checkers k).is_up))
        · rfl
        · exfalso; apply ha; simpa using hb
      simp [this, ha]

/-! ## Configuration handlers -/

theorem monitored_bfds_update_unlisted (h : Heap) (k : Nat) (c : checker_t) (r : Nat)
    (hk : k ∉ (h.rs r).tracked_bfds) :
    monitored_bfds { h with checkers := Function.update h.checkers k c } r =
      monitored_bfds h r := by
  unfold monitored_bfds
  apply List.map_congr_left
  intro a ha
  have : a ≠ k := fun e => hk (e ▸ ha)
  simp [Function.update, this]

theorem monitored_bfds_update_same_data (h : Heap) (k : Nat) (c : checker_t) (r : Nat)
    (hc : c.data = (h.checkers k).data) :
    monitored_bfds { h with checkers := Function.update h.checkers k c } r =
      monitored_bfds h r := by
  unfold monitored_bfds
  apply List.map_congr_left
  intro a _
  by_cases e : a = k
  · subst e; simp [hc]
  · simp [Function.update, e]

theorem already_monitoring_false (h : Heap) (t : Nat) (l : List Nat)
    (hl : already_monitoring h t l = false) :
    some t ∉ l.map fun c => (h.checkers c).data.bfd := by
  induction l with
  | nil => simp
  | cons a l ih =>
    unfold already_monitoring at hl
    split at hl
    · cases hl
    · rename_i hne
      simp only [List.map_cons, List.mem_cons, not_or]
      refine ⟨?_, ih hl⟩
      intro e
      apply hne
      simp [e]

theorem already_monitoring_true (h : Heap) (t : Nat) (l : List Nat)
    (hl : already_monitoring h t l = true) :
    ∃ c ∈ l, (h.checkers c).data.bfd = some t := by
  induction l with
  | nil => cases hl
  | cons a l ih =>
    unfold already_monitoring at hl
    split at hl
    · rename_i he
      exact ⟨a, List.mem_cons_self _ _, (eq_of_beq he).symm⟩
    · obtain ⟨c, hc, hb⟩ := ih hl
      exact ⟨c, List.mem_cons_of_mem _ hc, hb⟩

theorem config_inv_drop (s : check_state) (q : List Nat) (hs : config_inv s) :
    config_inv { s with checkers_queue := q, new_checker := none } :=
  ⟨hs.nodup, hs.listed, by intro nc h; cases h⟩

theorem bfd_check_handler_inv (init : checker_t) (s : check_state) (hs : config_inv s) :
    config_inv (bfd_check_handler init s) := by
  have hun : ∀ r, s.alloc ∉ (s.heap.rs r).tracked_bfds :=
    fun r hmem => Nat.lt_irrefl _ (hs.listed r _ hmem)
  refine ⟨?_, ?_, ?_⟩
  · intro r t
    have := hs.nodup r t
    simpa [bfd_check_handler, queue_checker, monitored_bfds_update_unlisted _ _ _ _ (hun r)]
      using this
  · intro r c hc
    have := hs.listed r c hc
    simp only [bfd_check_handler, queue_checker]
    omega
  · intro nc hnc
    simp only [bfd_check_handler, queue_checker, Option.some.injEq] at hnc
    subst hnc
    refine ⟨by simp [bfd_check_handler, queue_checker], fun r => hun r, ?_⟩
    intro t ht
    simp [bfd_check_handler, queue_checker] at ht

theorem bfd_name_handler_cases (x : Extern) (strvec : List String) (s : check_state)
    (nc : Nat) (hnc : s.new_checker = some nc) :
    (∃ t, strvec.length = 2 ∧
      find_checker_tracked_bfd_by_name s.track_bfds (strvec.getD 1 "") = some t ∧
      (s.heap.checkers nc).data.bfd = none ∧
      (strvec.getD 1 "").utf8ByteSize < x.BFD_INAME_MAX ∧
      already_monitoring s.heap t (s.heap.rs (s.heap.checkers nc).rs).tracked_bfds = false ∧
      bfd_name_handler x strvec s =
        { s with heap := { s.heap with checkers := (Function.update s.heap.checkers nc
            { s.heap.checkers nc with data := { bfd := some t } }) } }) ∨
    ((¬∃ t, strvec.length = 2 ∧
      find_checker_tracked_bfd_by_name s.track_bfds (strvec.getD 1 "") = some t ∧
      (s.heap.checkers nc).data.bfd = none ∧
      (strvec.getD 1 "").utf8ByteSize < x.BFD_INAME_MAX ∧
      already_monitoring s.heap t (s.heap.rs (s.heap.checkers nc).rs).tracked_bfds = false) ∧
      bfd_name_handler x strvec s = { dequeue_new_checker s with new_checker := none }) := by
  unfold bfd_name_handler
  rw [hnc]
  simp only []
  generalize strvec.getD 1 "" = name
  by_cases h1 : strvec.length = 2
  swap
  · right
    exact ⟨fun ⟨_, h, _⟩ => h1 h, by simp [h1]⟩
  cases hfind : find_checker_tracked_bfd_by_name s.track_bfds name with
  | none =>
    right
    refine ⟨fun ⟨_, _, h, _⟩ => (by cases h), ?_⟩
    simp [h1]
  | some t =>
    cases hb : (s.heap.checkers nc).data.bfd with
    | some b =>
      right
      refine ⟨fun ⟨_, _, _, h, _⟩ => (by cases h), ?_⟩
      simp [h1]
    | none =>
      by_cases h4 : name.utf8ByteSize < x.BFD_INAME_MAX
      swap
      · right
        refine ⟨fun ⟨_, _, _, _, h, _⟩ => h4 h, ?_⟩
        have h4' : x.BFD_INAME_MAX ≤ name.utf8ByteSize := Nat.le_of_not_lt h4
        simp [h1, h4']
      cases ham : already_monitoring s.heap t (s.heap.rs (s.heap.checkers nc).rs).tracked_bfds with
      | true =>
        right
        refine ⟨?_, ?_⟩
        · rintro ⟨t', _, ht', _, _, h⟩
          rw [← Option.some.inj ht', ham] at h
          cases h
        · simp [h1, h4, ham]
      | false =>
        left
        refine ⟨t, h1, rfl, rfl, h4, ham, ?_⟩
        have h4' : ¬ x.BFD_INAME_MAX ≤ name.utf8ByteSize := Nat.not_le_of_lt h4
        simp [h1, h4', ham]

theorem bfd_name_handler_inv (x : Extern) (strvec : List String) (s : check_state)
    (hs : config_inv s) : config_inv (bfd_name_handler x strvec s) := by
  cases hnc : s.new_checker with
  | none => simpa [bfd_name_handler, hnc] using hs
  | some nc =>
    obtain ⟨hlt, hun, _⟩ := hs.fresh nc hnc
    rcases bfd_name_handler_cases x strvec s nc hnc with
      ⟨t, _, _, _, _, ham, heq⟩ | ⟨_, heq⟩
    · rw [heq]
      refine ⟨?_, hs.listed, ?_⟩
      · intro r t'
        have := hs.nodup r t'
        simpa [monitored_bfds_update_unlisted _ _ _ _ (hun r)] using this
      · intro nc' hnc'
        simp only [hnc, Option.some.injEq] at hnc'
        subst hnc'
        refine ⟨hlt, hun, ?_⟩
        intro t' ht'
        simp only [Function.update_same, Option.some.injEq] at ht'
        subst ht'
        simp only [Function.update_same]
        rw [monitored_bfds_update_unlisted _ _ _ _ (hun _)]
        exact already_monitoring_false _ _ _ ham
    · rw [heq]
      exact config_inv_drop s _ hs

theorem bfd_alpha_handler_inv (x : Extern) (strvec : List String) (s : check_state)
    (hs : config_inv s) : config_inv (bfd_alpha_handler x strvec s) := by
  cases hnc : s.new_checker with
  | none => simpa [bfd_alpha_handler, hnc] using hs
  | some nc =>
    have hset : ∀ res : Int, config_inv
        { s with heap := { s.heap with checkers := (Function.update s.heap.checkers nc
                    { s.heap.checkers nc with alpha := res }) }
                 new_checker := some nc } := by
      intro res
      refine ⟨?_, hs.listed, ?_⟩
      · intro r t
        have := hs.nodup r t
        simpa [monitored_bfds_update_same_data] using this
      · intro nc' hnc'
        simp only [Option.some.injEq] at hnc'
        subst hnc'
        obtain ⟨hlt, hun, hb⟩ := hs.fresh nc hnc
        refine ⟨hlt, hun, ?_⟩
        intro t ht
        simp only [Function.update_same] at ht ⊢
        rw [monitored_bfds_update_unlisted _ _ _ _ (hun _)]
        exact hb t ht
    unfold bfd_alpha_handler
    rw [hnc]
    simp only []
    split
    · split
      · exact hs
      · exact hset _
    · exact hset 1

theorem bfd_end_handler_inv (s : check_state) (hs : config_inv s) :
    config_inv (bfd_end_handler s) := by
  cases hnc : s.new_checker with
  | none => simpa [bfd_end_handler, hnc] using hs
  | some nc =>
    obtain ⟨hlt, _, hb⟩ := hs.fresh nc hnc
    cases hbfd : (s.heap.checkers nc).data.bfd with
    | none =>
      have : bfd_end_handler s = { dequeue_new_checker s with new_checker := none } := by
        simp [bfd_end_handler, hnc, hbfd]
      rw [this]
      exact config_inv_drop s _ hs
    | some b =>
      have heq : bfd_end_handler s =
          { s with heap := { s.heap with rs := (Function.update s.heap.rs (s.heap.checkers nc).rs
                      { s.heap.rs (s.heap.checkers nc).rs with
                        tracked_bfds := (s.heap.rs (s.heap.checkers nc).rs).tracked_bfds ++ [nc] }) }
                   track_bfds := add_tracking_rs nc s.track_bfds b
                   new_checker := none } := by
        simp [bfd_end_handler, hnc, hbfd]
      rw [heq]
      have hmon : ∀ r, monitored_bfds
          { s.heap with rs := (Function.update s.heap.rs (s.heap.checkers nc).rs
                      { s.heap.rs (s.heap.checkers nc).rs with
                        tracked_bfds := (s.heap.rs (s.heap.checkers nc).rs).tracked_bfds ++ [nc] }) } r
          = if r = (s.heap.checkers nc).rs then monitored_bfds s.heap r ++ [some b]
            else monitored_bfds s.heap r := by
        intro r
        by_cases hr : r = (s.heap.checkers nc).rs
        · subst hr
          simp [monitored_bfds, hbfd]
        · simp [monitored_bfds, Function.update, hr]
      refine ⟨?_, ?_, ?_⟩
      · intro r t
        show List.count (some t) (monitored_bfds _ r) ≤ 1
        rw [hmon r]
        by_cases hr : r = (s.heap.checkers nc).rs
        · rw [if_pos hr, List.count_append]
          by_cases htb : t = b
          · subst htb
            have h0 : List.count (some t) (monitored_bfds s.heap r) = 0 := by
              rw [List.count_eq_zero]
              rw [hr]
              exact hb t hbfd
            simp [h0]
          · have h1 := hs.nodup r t
            have h0 : List.count (some t) [some b] = 0 := by
              simp [List.count_cons, htb]
            omega
        · rw [if_neg hr]
          exact hs.nodup r t
      · intro r c hc
        by_cases hr : r = (s.heap.checkers nc).rs
        · subst hr
          simp only [Function.update_same, List.mem_append, List.mem_singleton] at hc
          rcases hc with hc | hc
          · exact hs.listed _ c hc
          · rw [hc]; exact hlt
        · simp only [Function.update, hr] at hc
          exact hs.listed r c hc
      · intro nc' h
        cases h

theorem run_handler_inv (x : Extern) (s : check_state) (call : handler_call)
    (hs : config_inv s) : config_inv (run_handler x s call) := by
  cases call with
  | bfd_check init => exact bfd_check_handler_inv init s hs
  | bfd_name strvec => exact bfd_name_handler_inv x strvec s hs
  | bfd_alpha strvec => exact bfd_alpha_handler_inv x strvec s hs
  | bfd_end => exact bfd_end_handler_inv s hs

theorem run_handlers_inv (x : Extern) (calls : List handler_call) (s : check_state)
    (hs : config_inv s) : config_inv (run_handlers x calls s) := by
  induction calls generalizing s with
  | nil => exact hs
  | cons call calls ih => exact ih _ (run_handler_inv x s call hs)

/-- C7. Starting from a state in which no `BFD_CHECK` block is open (`new_checker` is NULL),
the checkers on the real servers' lists are allocated and no real server's `tracked_bfds`
list holds two checkers with the same tracked BFD, every sequence of calls of
`bfd_check_handler`, `bfd_name_handler`, `bfd_alpha_handler` and `bfd_end_handler`, in any
order and with any arguments, leads to a state in which every real server's `tracked_bfds`
list still holds at most one checker per tracked BFD. -/
theorem no_rs_monitors_bfd_twice (x : Extern) (calls : List handler_call) (s : check_state)
    (hnew : s.new_checker = none) (hlisted : lists_allocated s)
    (hnodup : no_double_monitoring s.heap) :
    no_double_monitoring (run_handlers x calls s).heap :=
  (run_handlers_inv x calls s ⟨hnodup, hlisted, by intro nc h; rw [hnew] at h; cases h⟩).nodup

/-- Witness for C7: two blocks naming the same BFD for one real server; the second is
dropped and the real server's list holds the first checker only. -/
theorem no_rs_monitors_bfd_twice_witness :
    no_double_monitoring (run_handlers sample_env sample_calls sample_state).heap ∧
    ((run_handlers sample_env sample_calls sample_state).heap.rs 0).tracked_bfds = [0] :=
  ⟨no_rs_monitors_bfd_twice sample_env sample_calls sample_state rfl
    (by intro r c hc; simp [sample_state, sample_heap] at hc)
    (by intro r t; simp [monitored_bfds, sample_state, sample_heap]), by decide⟩

theorem run_handlers_closed_block (x : Extern) (calls : List handler_call) (s : check_state)
    (hnew : s.new_checker = none) (hcalls : ∀ c ∈ calls, is_bfd_check c = false) :
    run_handlers x calls s = s := by
  induction calls with
  | nil => rfl
  | cons c calls ih =>
    have hc := hcalls c (List.mem_cons_self _ _)
    have hstep : run_handler x s c = s := by
      cases c with
      | bfd_check init => simp [is_bfd_check] at hc
      | bfd_name strvec => simp [run_handler, bfd_name_handler, hnew]
      | bfd_alpha strvec => simp [run_handler, bfd_alpha_handler, hnew]
      | bfd_end => simp [run_handler, bfd_end_handler, hnew]
    simp only [run_handlers, List.foldl_cons, hstep]
    exact ih fun c' h => hcalls c' (List.mem_cons_of_mem _ h)

theorem find_from_some (name : String) (l : List checker_tracked_bfd_t) (i t : Nat)
    (h : find_from name l i = some t) :
    i ≤ t ∧ ∃ b, l[t - i]? = some b ∧ b.bname = name ∧
      ∀ j, j < t - i → ∀ b', l[j]? = some b' → b'.bname ≠ name := by
  induction l generalizing i with
  | nil => cases h
  | cons a l ih =>
    unfold find_from at h
    split at h
    · rename_i heq
      cases h
      refine ⟨Nat.le_refl _, a, by simp, by simpa using heq, ?_⟩
      intro j hj
      omega
    · rename_i hne
      obtain ⟨hle, b, hb, hname, hfirst⟩ := ih (i + 1) h
      have hsub : t - i = (t - (i + 1)) + 1 := by omega
      refine ⟨by omega, b, by rw [hsub]; simpa using hb, hname, ?_⟩
      intro j hj b' hb'
      cases j with
      | zero =>
        simp only [List.getElem?_cons_zero, Option.some.injEq] at hb'
        subst hb'
        simpa using hne
      | succ j =>
        simp only [List.getElem?_cons_succ] at hb'
        exact hfirst j (by omega) b' hb'

theorem find_from_none (name : String) (l : List checker_tracked_bfd_t) (i : Nat)
    (h : find_from name l i = none) : ∀ b ∈ l, b.bname ≠ name := by
  induction l generalizing i with
  | nil => simp
  | cons a l ih =>
    unfold find_from at h
    split at h
    · cases h
    · rename_i hne
      intro b hb
      rcases List.mem_cons.mp hb with rfl | hb
      · simpa using hne
      · exact ih (i + 1) h b hb

/-- C8. While a checker `nc` is being defined (it is `new_checker` and the checker queued
last), `bfd_name_handler` accepts the line exactly when the line has 2 words, a tracked
BFD of that name is configured, the checker has no BFD yet, the name is shorter than
`BFD_INAME_MAX`, and no checker on the real server's `tracked_bfds` list has the BFD found.
When it accepts, the only change is that the checker's `bfd` is the BFD found by
`find_checker_tracked_bfd_by_name`, which is the first tracked BFD of that name.  In every
other case the heap (so the checker's `bfd`) and the tracked BFDs are unchanged, the
checker is removed from the queue, `new_checker` is NULL, and any following calls of the
name, alpha and end handlers leave the state as it is. -/
theorem bfd_name_handler_validation (x : Extern) (strvec : List String) (s : check_state)
    (nc : Nat) (hnc : s.new_checker = some nc) (hq : s.checkers_queue.getLast? = some nc) :
    ((bfd_name_handler x strvec s).new_checker = some nc ↔
      (strvec.length = 2 ∧
        (∃ t, find_checker_tracked_bfd_by_name s.track_bfds (strvec.getD 1 "") = some t ∧
          ∀ c ∈ (s.heap.rs (s.heap.checkers nc).rs).tracked_bfds,
            (s.heap.checkers c).data.bfd ≠ some t) ∧
        (s.heap.checkers nc).data.bfd = none ∧
        (strvec.getD 1 "").utf8ByteSize < x.BFD_INAME_MAX)) ∧
    ((∃ b ∈ s.track_bfds, b.bname = strvec.getD 1 "") ↔
      ∃ t, find_checker_tracked_bfd_by_name s.track_bfds (strvec.getD 1 "") = some t) ∧
    ((bfd_name_handler x strvec s).new_checker = some nc →
      ∃ t b, find_checker_tracked_bfd_by_name s.track_bfds (strvec.getD 1 "") = some t ∧
        s.track_bfds[t]? = some b ∧ b.bname = strvec.getD 1 "" ∧
        (∀ j, j < t → ∀ b', s.track_bfds[j]? = some b' → b'.bname ≠ strvec.getD 1 "") ∧
        bfd_name_handler x strvec s =
          { s with heap := { s.heap with checkers := (Function.update s.heap.checkers nc
              { s.heap.checkers nc with data := { bfd := some t } }) } }) ∧
    ((bfd_name_handler x strvec s).new_checker ≠ some nc →
      (bfd_name_handler x strvec s).heap = s.heap ∧
      (bfd_name_handler x strvec s).track_bfds = s.track_bfds ∧
      (bfd_name_handler x strvec s).alloc = s.alloc ∧
      s.checkers_queue = (bfd_name_handler x strvec s).checkers_queue ++ [nc] ∧
      (bfd_name_handler x strvec s).new_checker = none ∧
      ∀ calls : List handler_call, (∀ c ∈ calls, is_bfd_check c = false) →
        run_handlers x calls (bfd_name_handler x strvec s) = bfd_name_handler x strvec s) := by
  have hmon : ∀ t, already_monitoring s.heap t
        (s.heap.rs (s.heap.checkers nc).rs).tracked_bfds = false ↔
      ∀ c ∈ (s.heap.rs (s.heap.checkers nc).rs).tracked_bfds,
        (s.heap.checkers c).data.bfd ≠ some t := by
    intro t
    constructor
    · intro h c hc hbfd
      exact already_monitoring_false _ _ _ h (List.mem_map.mpr ⟨c, hc, hbfd⟩)
    · intro h
      cases ham : already_monitoring s.heap t (s.heap.rs (s.heap.checkers nc).rs).tracked_bfds
      · rfl
      · obtain ⟨c, hc, hbfd⟩ := already_monitoring_true _ _ _ ham
        exact absurd hbfd (h c hc)
  have hconf : (∃ b ∈ s.track_bfds, b.bname = strvec.getD 1 "") ↔
      ∃ t, find_checker_tracked_bfd_by_name s.track_bfds (strvec.getD 1 "") = some t := by
    constructor
    · rintro ⟨b, hb, hname⟩
      cases hf : find_checker_tracked_bfd_by_name s.track_bfds (strvec.getD 1 "") with
      | none => exact absurd hname (find_from_none _ _ _ hf b hb)
      | some t => exact ⟨t, rfl⟩
    · rintro ⟨t, ht⟩
      obtain ⟨_, b, hb, hname, _⟩ := find_from_some _ _ _ _ ht
      exact ⟨b, List.getElem?_mem hb, hname⟩
  rcases bfd_name_handler_cases x strvec s nc hnc with
    ⟨t, h1, hfind, hb, h4, ham, heq⟩ | ⟨hno, heq⟩
  · have hacc : (bfd_name_handler x strvec s).new_checker = some nc := by rw [heq]; exact hnc
    refine ⟨?_, hconf, ?_, fun h => absurd hacc h⟩
    · exact ⟨fun _ => ⟨h1, ⟨t, hfind, (hmon t).mp ham⟩, hb, h4⟩, fun _ => hacc⟩
    · intro _
      obtain ⟨_, b, hbt, hname, hfirst⟩ := find_from_some _ _ _ _ hfind
      exact ⟨t, b, hfind, by simpa using hbt, hname, by simpa using hfirst, heq⟩
  · have hrej : (bfd_name_handler x strvec s).new_checker = none := by rw [heq]
    have hne : (bfd_name_handler x strvec s).new_checker ≠ some nc := by rw [hrej]; simp
    refine ⟨?_, hconf, fun h => absurd h hne, ?_⟩
    · refine ⟨fun h => absurd h hne, ?_⟩
      rintro ⟨h1, ⟨t, hfind, hm⟩, hb, h4⟩
      exact absurd ⟨t, h1, hfind, hb, h4, (hmon t).mpr hm⟩ hno
    · intro _
      refine ⟨by rw [heq]; rfl, by rw [heq]; rfl, by rw [heq]; rfl, ?_, hrej, ?_⟩
      · rw [heq]
        exact (List.dropLast_append_getLast? nc (by rw [hq]; exact rfl)).symm
      · intro calls hcalls
        exact run_handlers_closed_block x calls _ hrej hcalls

/-- Witness for C8: a name that is not configured closes the block. -/
theorem bfd_name_handler_validation_witness :
    (bfd_check_handler sample_checker sample_state).checkers_queue =
      (bfd_name_handler sample_env ["name", "bfd9"]
        (bfd_check_handler sample_checker sample_state)).checkers_queue ++ [0] ∧
    (bfd_name_handler sample_env ["name", "bfd9"]
        (bfd_check_handler sample_checker sample_state)).new_checker = none ∧
    ((bfd_name_handler sample_env ["name", "bfd2"]
        (bfd_check_handler sample_checker sample_state)).heap.checkers 0).data.bfd = some 1 :=
  have h := (bfd_name_handler_validation sample_env ["name", "bfd9"]
    (bfd_check_handler sample_checker sample_state) 0 rfl rfl).2.2.2 (by decide)
  ⟨h.2.2.2.1, h.2.2.2.2.1, by decide⟩

/-! ## Retry threshold -/

theorem handle_checker_other (x : Extern) (hframe : update_frame x) (evt : bfd_event_t)
    (st : Heap × List Call) (k c : Nat) (hkc : k ≠ c) :
    (handle_checker x evt st k).1.checkers c = st.1.checkers c ∧
    calls_on c (handle_checker x evt st k).2 = calls_on c st.2 ∧
    updates_on c (handle_checker x evt st k).2 = updates_on c st.2 := by
  have hck : c ≠ k := fun e => hkc e.symm
  unfold handle_checker
  simp only []
  split
  · exact ⟨rfl, rfl, rfl⟩
  · split
    · exact ⟨by simp [Function.update, hck], rfl, rfl⟩
    · refine ⟨(hframe _ k st.1).1 c hck, ?_, ?_⟩
      · split <;> simp [calls_on, List.filter_append, List.filter_cons, hkc]
      · split <;> simp [updates_on, List.filter_append, List.filter_cons, hkc]

theorem foldl_handle_checker_other (x : Extern) (hframe : update_frame x) (evt : bfd_event_t)
    (c : Nat) (l : List Nat) (hl : c ∉ l) (st : Heap × List Call) :
    (l.foldl (handle_checker x evt) st).1.checkers c = st.1.checkers c ∧
    calls_on c (l.foldl (handle_checker x evt) st).2 = calls_on c st.2 ∧
    updates_on c (l.foldl (handle_checker x evt) st).2 = updates_on c st.2 := by
  induction l generalizing st with
  | nil => exact ⟨rfl, rfl, rfl⟩
  | cons k l ih =>
    have hkc : k ≠ c := fun e => hl (e ▸ List.mem_cons_self _ _)
    have hl' : c ∉ l := fun h => hl (List.mem_cons_of_mem _ h)
    obtain ⟨h1, h2, h3⟩ := ih hl' (handle_checker x evt st k)
    obtain ⟨g1, g2, g3⟩ := handle_checker_other x hframe evt st k c hkc
    simp only [List.foldl_cons]
    exact ⟨h1.trans g1, h2.trans g2, h3.trans g3⟩

theorem count_one_split (c : Nat) (l : List Nat) (hc : l.count c = 1) :
    ∃ l1 l2, l = l1 ++ c :: l2 ∧ c ∉ l1 ∧ c ∉ l2 := by
  induction l with
  | nil => simp at hc
  | cons a l ih =>
    by_cases hac : a = c
    · subst hac
      refine ⟨[], l, rfl, by simp, ?_⟩
      simp only [List.count_cons_self] at hc
      have h0 : l.count a = 0 := by omega
      exact List.count_eq_zero.mp h0
    · have hc' : l.count c = 1 := by
        rw [List.count_cons_of_ne (fun e => hac e.symm)] at hc
        exact hc
      obtain ⟨l1, l2, hl, h1, h2⟩ := ih hc'
      refine ⟨a :: l1, l2, by simp [hl], ?_, h2⟩
      simp only [List.mem_cons, not_or]
      exact ⟨fun e => hac e.symm, h1⟩

/-- The effect of one event on a checker listed once for the event's BFD: the step on that
checker, taken from a state in which it is as before the event and no call on it was made. -/
theorem handle_event_on_checker (x : Extern) (hframe : update_frame x)
    (track_bfds : List checker_tracked_bfd_t) (b : checker_tracked_bfd_t) (evt : bfd_event_t)
    (hb : track_bfds.find? (fun b => b.bname == evt.iname) = some b)
    (c : Nat) (hc : b.tracking_rs.count c = 1) (h : Heap) :
    ∃ st : Heap × List Call, st.1.checkers c = h.checkers c ∧ calls_on c st.2 = [] ∧
      updates_on c st.2 = [] ∧
      (bfd_check_handle_event x track_bfds evt h).1.checkers c =
        (handle_checker x evt st c).1.checkers c ∧
      calls_on c (bfd_check_handle_event x track_bfds evt h).2 =
        calls_on c (handle_checker x evt st c).2 ∧
      updates_on c (bfd_check_handle_event x track_bfds evt h).2 =
        updates_on c (handle_checker x evt st c).2 := by
  obtain ⟨l1, l2, hl, h1, h2⟩ := count_one_split c b.tracking_rs hc
  rw [bfd_check_handle_event_first_match, hb]
  simp only [hl, List.foldl_append, List.foldl_cons]
  obtain ⟨a1, a2, a3⟩ := foldl_handle_checker_other x hframe evt c l1 h1 (h, [])
  obtain ⟨b1, b2, b3⟩ := foldl_handle_checker_other x hframe evt c l2 h2
    (handle_checker x evt (l1.foldl (handle_checker x evt) (h, [])) c)
  exact ⟨l1.foldl (handle_checker x evt) (h, []), a1, a2, a3, b1, b2, b3⟩

theorem handle_checker_up_noop (x : Extern) (evt : bfd_event_t) (st : Heap × List Call)
    (c : Nat) (hst : evt.state = x.BFD_STATE_UP) (hup : (st.1.checkers c).is_up = true)
    (hrun : (st.1.checkers c).has_run = true) :
    handle_checker x evt st c = st := by
  simp [handle_checker, hst, hup, hrun]

theorem handle_checker_down_retry (x : Extern) (hstates : x.BFD_STATE_UP ≠ x.BFD_STATE_DOWN)
    (evt : bfd_event_t) (st : Heap × List Call) (c : Nat)
    (hst : evt.state = x.BFD_STATE_DOWN) (hup : (st.1.checkers c).is_up = true)
    (hlt : (st.1.checkers c).retry_it < (st.1.checkers c).retry) :
    (handle_checker x evt st c).1.checkers c =
      { st.1.checkers c with retry_it := (st.1.checkers c).retry_it + 1 } ∧
    (handle_checker x evt st c).2 = st.2 := by
  have hne : (x.BFD_STATE_DOWN == x.BFD_STATE_UP) = false := by
    simpa using fun e => hstates e.symm
  simp [handle_checker, hst, hup, hlt, hne]

theorem handle_checker_down_fire (x : Extern) (hstates : x.BFD_STATE_UP ≠ x.BFD_STATE_DOWN)
    (evt : bfd_event_t) (st : Heap × List Call) (c : Nat)
    (hst : evt.state = x.BFD_STATE_DOWN) (hup : (st.1.checkers c).is_up = true)
    (hge : ¬ (st.1.checkers c).retry_it < (st.1.checkers c).retry) :
    updates_on c (handle_checker x evt st c).2 =
      updates_on c st.2 ++ [Call.update_svr_checker_state false c] := by
  have hne : (x.BFD_STATE_DOWN == x.BFD_STATE_UP) = false := by
    simpa using fun e => hstates e.symm
  have hge' : (st.1.checkers c).retry ≤ (st.1.checkers c).retry_it := Nat.le_of_not_lt hge
  unfold handle_checker
  simp only [hst, hup, hne]
  split
  · rename_i h; simp at h
  · split
    · rename_i h; simp at h; omega
    · split <;> simp [updates_on, List.filter_append, List.filter_cons]

theorem handle_checker_retry_bound (x : Extern) (hframe : update_frame x) (evt : bfd_event_t)
    (st : Heap × List Call) (k c : Nat) :
    ((handle_checker x evt st k).1.checkers c).retry = (st.1.checkers c).retry ∧
    ((st.1.checkers c).retry_it ≤ (st.1.checkers c).retry →
      ((handle_checker x evt st k).1.checkers c).retry_it ≤ (st.1.checkers c).retry) := by
  by_cases hkc : k = c
  · subst hkc
    unfold handle_checker
    simp only []
    split
    · exact ⟨rfl, id⟩
    · split
      · rename_i h
        simp only [Bool.and_eq_true, decide_eq_true_eq] at h
        refine ⟨by simp only [Function.update_same], fun _ => ?_⟩
        simp only [Function.update_same]
        exact h.2
      · obtain ⟨_, h2, h3⟩ := hframe (evt.state == x.BFD_STATE_UP) k st.1
        refine ⟨h2, fun hle => ?_⟩
        rw [h3]
        exact hle
  · obtain ⟨h1, _, _⟩ := handle_checker_other x hframe evt st k c hkc
    rw [h1]
    exact ⟨rfl, id⟩

theorem foldl_handle_checker_retry_bound (x : Extern) (hframe : update_frame x)
    (evt : bfd_event_t) (c : Nat) (l : List Nat) (st : Heap × List Call) :
    ((l.foldl (handle_checker x evt) st).1.checkers c).retry = (st.1.checkers c).retry ∧
    ((st.1.checkers c).retry_it ≤ (st.1.checkers c).retry →
      ((l.foldl (handle_checker x evt) st).1.checkers c).retry_it ≤ (st.1.checkers c).retry) := by
  induction l generalizing st with
  | nil => exact ⟨rfl, id⟩
  | cons k l ih =>
    obtain ⟨h1, h2⟩ := handle_checker_retry_bound x hframe evt st k c
    obtain ⟨g1, g2⟩ := ih (handle_checker x evt st k)
    simp only [List.foldl_cons]
    refine ⟨g1.trans h1, fun hle => ?_⟩
    rw [← h1]
    exact g2 (by rw [h1]; exact h2 hle)

theorem handle_event_retry_bound (x : Extern) (hframe : update_frame x)
    (track_bfds : List checker_tracked_bfd_t) (evt : bfd_event_t) (c : Nat) (h : Heap) :
    ((bfd_check_handle_event x track_bfds evt h).1.checkers c).retry = (h.checkers c).retry ∧
    ((h.checkers c).retry_it ≤ (h.checkers c).retry →
      ((bfd_check_handle_event x track_bfds evt h).1.checkers c).retry_it ≤
        (h.checkers c).retry) := by
  rw [bfd_check_handle_event_first_match]
  split
  · exact ⟨rfl, id⟩
  · exact foldl_handle_checker_retry_bound x hframe evt c _ (h, [])

theorem handle_events_retry_bound (x : Extern) (hframe : update_frame x)
    (track_bfds : List checker_tracked_bfd_t) (c : Nat) (evts : List bfd_event_t) (h : Heap) :
    ((handle_events x track_bfds evts h).1.checkers c).retry = (h.checkers c).retry ∧
    ((h.checkers c).retry_it ≤ (h.checkers c).retry →
      ((handle_events x track_bfds evts h).1.checkers c).retry_it ≤ (h.checkers c).retry) := by
  induction evts generalizing h with
  | nil => exact ⟨rfl, id⟩
  | cons evt evts ih =>
    obtain ⟨h1, h2⟩ := handle_event_retry_bound x hframe track_bfds evt c h
    obtain ⟨g1, g2⟩ := ih (bfd_check_handle_event x track_bfds evt h).1
    simp only [handle_events]
    refine ⟨g1.trans h1, fun hle => ?_⟩
    rw [← h1]
    exact g2 (by rw [h1]; exact h2 hle)

/-- While the DOWN events of a sequence fit in the retries left, a checker that is up and
has run only has its `retry_it` advanced by their number, and no call is made on it. -/
theorem handle_events_below_threshold (x : Extern)
    (hstates : x.BFD_STATE_UP ≠ x.BFD_STATE_DOWN) (hframe : update_frame x)
    (track_bfds : List checker_tracked_bfd_t) (b : checker_tracked_bfd_t) (name : String)
    (hb : track_bfds.find? (fun b => b.bname == name) = some b)
    (c : Nat) (hc : b.tracking_rs.count c = 1) (evts : List bfd_event_t)
    (hevts : ∀ e ∈ evts, e.iname = name ∧
      (e.state = x.BFD_STATE_UP ∨ e.state = x.BFD_STATE_DOWN))
    (h : Heap) (hrun : (h.checkers c).has_run = true) (hup : (h.checkers c).is_up = true)
    (hle : (h.checkers c).retry_it + count_down x evts ≤ (h.checkers c).retry) :
    (handle_events x track_bfds evts h).1.checkers c =
      { h.checkers c with retry_it := (h.checkers c).retry_it + count_down x evts } ∧
    calls_on c (handle_events x track_bfds evts h).2 = [] := by
  induction evts generalizing h with
  | nil => exact ⟨rfl, rfl⟩
  | cons e evts ih =>
    obtain ⟨hname, hstate⟩ := hevts e (List.mem_cons_self _ _)
    have hevts' : ∀ e' ∈ evts, e'.iname = name ∧
        (e'.state = x.BFD_STATE_UP ∨ e'.state = x.BFD_STATE_DOWN) :=
      fun e' he' => hevts e' (List.mem_cons_of_mem _ he')
    have hb' : track_bfds.find? (fun b => b.bname == e.iname) = some b := by rw [hname]; exact hb
    obtain ⟨st, s1, s2, _, r1, r2, _⟩ :=
      handle_event_on_checker x hframe track_bfds b e hb' c hc h
    rcases hstate with hs | hs
    · -- an UP event changes nothing for the checker
      have hnoop := handle_checker_up_noop x e st c hs (by rw [s1]; exact hup)
        (by rw [s1]; exact hrun)
      rw [hnoop] at r1 r2
      have hcd : count_down x (e :: evts) = count_down x evts := by
        simp [count_down, List.countP_cons, hs, hstates]
      rw [hcd] at hle ⊢
      have hsame : (bfd_check_handle_event x track_bfds e h).1.checkers c = h.checkers c :=
        r1.trans s1
      obtain ⟨i1, i2⟩ := ih hevts' (bfd_check_handle_event x track_bfds e h).1
        (by rw [hsame]; exact hrun) (by rw [hsame]; exact hup) (by rw [hsame]; exact hle)
      simp only [handle_events, calls_on, List.filter_append]
      refine ⟨by rw [i1, hsame], ?_⟩
      have r2' : calls_on c (bfd_check_handle_event x track_bfds e h).2 = [] := r2.trans s2
      simp only [calls_on] at r2' i2
      rw [r2', i2]
      rfl
    · -- a DOWN event within the retries increments retry_it
      have hcd : count_down x (e :: evts) = count_down x evts + 1 := by
        simp [count_down, List.countP_cons, hs]
      rw [hcd] at hle ⊢
      have hlt : (st.1.checkers c).retry_it < (st.1.checkers c).retry := by rw [s1]; omega
      obtain ⟨d1, d2⟩ := handle_checker_down_retry x hstates e st c hs
        (by rw [s1]; exact hup) hlt
      rw [d1, s1] at r1
      rw [d2, s2] at r2
      obtain ⟨i1, i2⟩ := ih hevts' (bfd_check_handle_event x track_bfds e h).1
        (by rw [r1]; exact hrun) (by rw [r1]; exact hup) (by rw [r1]; simp only []; omega)
      simp only [handle_events, calls_on, List.filter_append]
      refine ⟨?_, ?_⟩
      · rw [i1, r1]
        simp only [checker_t.mk.injEq, true_and]
        omega
      · simp only [calls_on] at r2 i2
        rw [r2, i2]
        rfl

theorem sample_env_frame : update_frame sample_env := by
  intro alive k h
  refine ⟨?_, ?_, ?_⟩
  · intro j hj
    simp [sample_env, Function.update, hj]
  · simp [sample_env]
  · simp [sample_env]

/-- C9. Let checker `c`, listed once for the first tracked BFD named `name`, be up, have run
and have `retry_it ≤ retry`, and let `evts` be UP and DOWN events for that BFD (UP and DOWN
being different states, and `update_svr_checker_state` touching no other checker and neither
`retry` nor `retry_it`).  As long as `evts` holds at most `retry - retry_it` DOWN events,
all it does to `c` is add the number of its DOWN events to `retry_it`, and no
`update_svr_checker_state` or `smtp_alert` call is made on `c` (so UP events leave `c`
unchanged, however many are interleaved).  When `evts` holds exactly `retry - retry_it`
DOWN events, one further DOWN event calls `update_svr_checker_state (DOWN, c)`, once.
After every sequence `retry_it` is at most `retry`. -/
theorem retry_threshold (x : Extern) (hstates : x.BFD_STATE_UP ≠ x.BFD_STATE_DOWN)
    (hframe : update_frame x)
    (track_bfds : List checker_tracked_bfd_t) (b : checker_tracked_bfd_t) (name : String)
    (hb : track_bfds.find? (fun b => b.bname == name) = some b)
    (c : Nat) (hc : b.tracking_rs.count c = 1)
    (h : Heap) (hrun : (h.checkers c).has_run = true) (hup : (h.checkers c).is_up = true)
    (hk : (h.checkers c).retry_it ≤ (h.checkers c).retry)
    (evts : List bfd_event_t)
    (hevts : ∀ e ∈ evts, e.iname = name ∧
      (e.state = x.BFD_STATE_UP ∨ e.state = x.BFD_STATE_DOWN)) :
    (count_down x evts ≤ (h.checkers c).retry - (h.checkers c).retry_it →
      (handle_events x track_bfds evts h).1.checkers c =
        { h.checkers c with retry_it := (h.checkers c).retry_it + count_down x evts } ∧
      calls_on c (handle_events x track_bfds evts h).2 = []) ∧
    (count_down x evts = (h.checkers c).retry - (h.checkers c).retry_it →
      ∀ e : bfd_event_t, e.iname = name → e.state = x.BFD_STATE_DOWN →
        updates_on c
          (bfd_check_handle_event x track_bfds e (handle_events x track_bfds evts h).1).2 =
            [Call.update_svr_checker_state false c]) ∧
    ((handle_events x track_bfds evts h).1.checkers c).retry = (h.checkers c).retry ∧
    ((handle_events x track_bfds evts h).1.checkers c).retry_it ≤ (h.checkers c).retry := by
  refine ⟨?_, ?_, (handle_events_retry_bound x hframe track_bfds c evts h).1,
    (handle_events_retry_bound x hframe track_bfds c evts h).2 hk⟩
  · intro hcount
    exact handle_events_below_threshold x hstates hframe track_bfds b name hb c hc evts hevts
      h hrun hup (by omega)
  · intro hcount e hname hstate
    obtain ⟨hafter, _⟩ := handle_events_below_threshold x hstates hframe track_bfds b name hb
      c hc evts hevts h hrun hup (by omega)
    have hb' : track_bfds.find? (fun b => b.bname == e.iname) = some b := by
      rw [hname]; exact hb
    obtain ⟨st, s1, _, s3, _, _, r3⟩ := handle_event_on_checker x hframe track_bfds b e hb' c hc
      (handle_events x track_bfds evts h).1
    have hfire := handle_checker_down_fire x hstates e st c hstate
      (by rw [s1, hafter]; exact hup)
      (by rw [s1, hafter]; simp only []; omega)
    rw [r3, hfire, s3]
    rfl

/-- Witness for C9: with 2 retries, the events DOWN, UP, DOWN only count, and the third
DOWN event calls `update_svr_checker_state (DOWN, 0)`. -/
theorem retry_threshold_witness :
    (handle_events sample_env sample_track_bfds [sample_down, sample_up, sample_down]
        sample_run_heap).1.checkers 0 =
      { sample_run_heap.checkers 0 with retry_it := 2 } ∧
    calls_on 0 (handle_events sample_env sample_track_bfds
      [sample_down, sample_up, sample_down] sample_run_heap).2 = [] ∧
    updates_on 0 (bfd_check_handle_event sample_env sample_track_bfds sample_down
      (handle_events sample_env sample_track_bfds [sample_down, sample_up, sample_down]
        sample_run_heap).1).2 = [Call.update_svr_checker_state false 0] :=
  have h := retry_threshold sample_env (by decide) sample_env_frame sample_track_bfds
    { bname := "bfd1", tracking_rs := [0] } "bfd1" (by decide) 0 (by decide) sample_run_heap
    rfl rfl (by decide) [sample_down, sample_up, sample_down] (by decide)
  ⟨(h.1 (by decide)).1, (h.1 (by decide)).2, h.2.1 (by decide) sample_down rfl rfl⟩

end Keepalived
